import Mathlib

/-!
Verification development for the exr-separator repository.

The Lean definitions below are a shallow embedding of `exr.py` and `main.py`.
Python strings are `String`; the per-channel pixel-type objects
(`Imath.Channel`) are an abstract type `T` with decidable equality (the code
only ever compares them for equality); a pixel-type object carries a raw
storage type in its `type` attribute, embedded as the structure
`ImathChannel`.  Python dictionaries that preserve insertion order are
embedded as association lists.  A Python function that may raise an
exception is embedded as an `Option`-valued function, `none` standing for
the raised exception.  ASCII character classification (`Char.isDigit`,
`Char.isAlpha`, `Char.toLower`) stands in for the Python `str` predicates,
which agree with it on ASCII data.
-/

/-- Sort key of a raw channel label, derived from the label's last character,
case-insensitively (source: `EXRChannelInfo.compare_labels`).  `none` models
the `IndexError` raised by `element[-1]` on an empty string and the
`KeyError` raised by the dictionary lookup on an unrecognized character. -/
def compareLabels (element : String) : Option Nat :=
  match element.data.getLast? with
  | none => none
  | some c =>
    match c.toLower with
    | 'r' => some 0
    | 'g' => some 1
    | 'b' => some 2
    | 'a' => some 3
    | 'x' => some 0
    | 'y' => some 1
    | 'z' => some 2
    | 'w' => some 3
    | _ => none

/-- The comparator key with default 0; only used to state properties about
labels whose key is defined. -/
def keyD (l : String) : Nat := (compareLabels l).getD 0

/-- Decorate each label with its comparator key, failing (like Python's
`list.sort(key=...)` does) as soon as one key is undefined. -/
def attachKeys : List String → Option (List (Nat × String))
  | [] => some []
  | l :: rest =>
    match compareLabels l, attachKeys rest with
    | some k, some ks => some ((k, l) :: ks)
    | _, _ => none

/-- Comparison of decorated labels by key. -/
def keyLE (a b : Nat × String) : Prop := a.1 ≤ b.1

instance : DecidableRel keyLE := fun a b => (inferInstance : Decidable (a.1 ≤ b.1))

instance : IsTotal (Nat × String) keyLE := ⟨fun a b => Nat.le_total a.1 b.1⟩

instance : IsTrans (Nat × String) keyLE := ⟨fun _ _ _ hab hbc => Nat.le_trans hab hbc⟩

/-- The in-place stable sort `self._labels.sort(key=self.compare_labels)`:
decorate with keys, stable-sort by key, undecorate.  `Mathlib`'s insertion
sort with a non-strict key comparison is stable, like Python's sort. -/
def sortLabels (labels : List String) : Option (List String) :=
  (attachKeys labels).map (fun keyed => (keyed.insertionSort keyLE).map Prod.snd)

/-- The pixel-type object stored per channel in an EXR header
(`Imath.Channel`), carrying the raw storage type in its `type` attribute. -/
structure ImathChannel (PT : Type) where
  type : PT
deriving DecidableEq, Repr

/-- One logical channel group (source: class `EXRChannelInfo`): a name, the
pixel type recorded at creation, and the canonically ordered raw labels. -/
structure EXRChannelInfo (T : Type) where
  name : String
  type : T
  labels : List String
deriving DecidableEq, Repr

namespace EXRChannelInfo

/-- Source: `get_target_channels` returns `['R','G','B','A'][:len(labels)]`. -/
def getTargetChannels (info : EXRChannelInfo T) : List String :=
  (["R", "G", "B", "A"] : List String).take info.labels.length

/-- Source: `add_label` appends the label and re-sorts by the comparator key;
`none` models the `KeyError` escaping from the sort. -/
def addLabel (info : EXRChannelInfo T) (label : String) : Option (EXRChannelInfo T) :=
  (sortLabels (info.labels ++ [label])).map (fun ls => { info with labels := ls })

/-- Iterated `add_label`; the order in which the catalog builder feeds one
group its labels. -/
def addLabels (info : EXRChannelInfo T) : List String → Option (EXRChannelInfo T)
  | [] => some info
  | l :: rest =>
    match info.addLabel l with
    | none => none
    | some info' => info'.addLabels rest

/-- Source: `is_color` compares the group name with the string C. -/
def isColor (info : EXRChannelInfo T) : Bool := info.name == "C"

/-- Source: `is_depth` compares the group name with the string Z. -/
def isDepth (info : EXRChannelInfo T) : Bool := info.name == "Z"

/-- Source: `is_valid`; depth groups need exactly one label, all other
groups need exactly 3 or 4 labels. -/
def isValid (info : EXRChannelInfo T) : Bool :=
  if info.isDepth then
    info.labels.length == 1
  else
    info.labels.length == 3 || info.labels.length == 4

/-- Source: `get_pixel_type` returns `self._type.type`. -/
def getPixelType (info : EXRChannelInfo (ImathChannel PT)) : PT := info.type.type

/-- Source: `get_pixels_data`.  `exr` embeds `exr.channel`, reading the raw
buffer of a label at a pixel type.  The `getD` total read of a label is
faithful because every index used is in range (the target-channel list is
never longer than the label list). -/
def getPixelsData (info : EXRChannelInfo (ImathChannel PT)) (exr : String → PT → P) :
    List (String × P) :=
  info.getTargetChannels.enum.map (fun p =>
    let labelIndex := if info.isDepth then 0 else p.1
    (p.2, exr (info.labels.getD labelIndex "") info.getPixelType))

end EXRChannelInfo

/-- The characters of a label that precede its first dot; embeds the Python
expression `channel_label.split('.')[0]`. -/
def beforeFirstDot (label : String) : String :=
  String.mk (label.data.takeWhile (fun c => c ≠ '.'))

/-- Classification of one raw header label into a logical group name
(source: the `if/elif` chain of `EXRSequence._get_channels_info`).  `none`
means the label is unrecognized and skipped with a warning. -/
def classifyLabel (label : String) : Option String :=
  if label ∈ (["R", "G", "B", "A"] : List String) then some "C"
  else if label ∈ (["Z"] : List String) then some "Z"
  else if '.' ∈ label.data then some (beforeFirstDot label)
  else none

/-- Diagnostics emitted by catalog construction (the `logger.warning` calls
of `_get_channels_info`). -/
inductive BuildWarning where
  | unrecognized (label : String)
  | typeMismatch (groupName label : String)
  | invalidGroup (groupName : String) (labels : List String)
deriving DecidableEq, Repr

/-- The channel catalog: the insertion-ordered dictionary
`{channel_name: EXRChannelInfo}`. -/
abbrev Catalog (T : Type) := List (String × EXRChannelInfo T)

/-- Dictionary read `channels_info[name]`, `none` when the key is absent. -/
def lookupInfo (name : String) (cat : Catalog T) : Option (EXRChannelInfo T) :=
  (cat.find? (fun p => p.1 == name)).map Prod.snd

/-- Dictionary-entry update: apply `f` to the value stored at `name` (the
in-place mutation of the shared `EXRChannelInfo` object); `none` when `f`
fails there. -/
def updateInfo (name : String) (f : EXRChannelInfo T → Option (EXRChannelInfo T)) :
    Catalog T → Option (Catalog T)
  | [] => some []
  | p :: rest =>
    if p.1 = name then
      (f p.2).map (fun i => (p.1, i) :: rest)
    else
      (updateInfo name f rest).map (fun c => p :: c)

/-- One iteration of the header scan of `_get_channels_info`: classify the
label, lazily create the group recording the first-seen pixel type, warn on a
pixel-type mismatch, and append the label to the group. -/
def buildStep [DecidableEq T] (st : Catalog T × List BuildWarning) (entry : String × T) :
    Option (Catalog T × List BuildWarning) :=
  match classifyLabel entry.1 with
  | none => some (st.1, st.2 ++ [BuildWarning.unrecognized entry.1])
  | some channelName =>
    match lookupInfo channelName st.1 with
    | none =>
      ((EXRChannelInfo.mk channelName entry.2 []).addLabel entry.1).map
        (fun info => (st.1 ++ [(channelName, info)], st.2))
    | some info =>
      let ws :=
        if entry.2 ≠ info.type then st.2 ++ [BuildWarning.typeMismatch channelName entry.1]
        else st.2
      (updateInfo channelName (fun i => i.addLabel entry.1) st.1).map (fun c => (c, ws))

/-- The header scan loop of `_get_channels_info`. -/
def buildFold [DecidableEq T] (st : Catalog T × List BuildWarning) :
    List (String × T) → Option (Catalog T × List BuildWarning)
  | [] => some st
  | e :: rest =>
    match buildStep st e with
    | none => none
    | some st' => buildFold st' rest

/-- Source: `EXRSequence._get_channels_info`. The input is the insertion
ordered `(label, pixel_type)` list of `header['channels']`; the scan loop
builds the catalog and the filter loop then drops every invalid group with a
warning.  `none` models the `KeyError` escaping from a label sort. -/
def getChannelsInfo [DecidableEq T] (header : List (String × T)) :
    Option (Catalog T × List BuildWarning) :=
  (buildFold ([], []) header).map (fun st =>
    (st.1.filter (fun p => p.2.isValid),
     st.2 ++ (st.1.filter (fun p => !p.2.isValid)).map
       (fun p => BuildWarning.invalidGroup p.1 p.2.labels)))

/-- Reference fold describing what the scan loop does to the single group
named `n`: the entries classified to other groups leave it untouched, each
entry classified to `n` creates the group on first encounter (recording that
entry's pixel type) and appends its label. -/
def groupFold [DecidableEq T] (n : String) (start : Option (EXRChannelInfo T)) :
    List (String × T) → Option (Option (EXRChannelInfo T))
  | [] => some start
  | e :: rest =>
    if classifyLabel e.1 = some n then
      match (start.getD (EXRChannelInfo.mk n e.2 [])).addLabel e.1 with
      | none => none
      | some info' => groupFold n (some info') rest
    else
      groupFold n start rest

/-- Strip from the reversed stem a maximal run of characters satisfying `p`,
prepending each stripped character to the accumulated frame buffer; embeds
one of the two `while True` loops of `append_channel_name_to_filename`.
`none` models the `IndexError` raised by `filename_chars[-1]` once the list
is exhausted. -/
def popWhile (p : Char → Bool) : List Char → List Char → Option (List Char × List Char)
  | [], _ => none
  | c :: rest, acc =>
    if p c then popWhile p rest (c :: acc)
    else some (c :: rest, acc)

/-- Source: `EXRSequence.append_channel_name_to_filename`.  `stem` and
`suffix` are `file.stem` and `file.suffix`.  The first loop strips the
trailing decimal digits, the second strips the trailing non-alphabetic
characters, and the channel name is spliced between the remaining base and
the stripped frame run. -/
def appendChannelNameToFilename (stem suffix channelName : String) : Option String :=
  match popWhile Char.isDigit stem.data.reverse [] with
  | none => none
  | some (r1, f1) =>
    match popWhile (fun c => !c.isAlpha) r1 f1 with
    | none => none
    | some (r2, f2) =>
      some (String.mk r2.reverse ++ "." ++ channelName ++ String.mk f2 ++ suffix)

/-- Frame suffix of a stem as the specification words it: the maximal
trailing run of decimal digits together with the maximal run of
non-alphabetic characters immediately preceding them. -/
def specFrame (stem : String) : String :=
  let rl := stem.data.reverse
  let ds := rl.takeWhile Char.isDigit
  let ms := (rl.dropWhile Char.isDigit).takeWhile (fun c => !c.isAlpha)
  String.mk (ds ++ ms).reverse

/-- Base of a stem as the specification words it: everything before the
frame suffix. -/
def specBase (stem : String) : String :=
  let rl := stem.data.reverse
  String.mk (((rl.dropWhile Char.isDigit).dropWhile (fun c => !c.isAlpha)).reverse)

/-- Property vocabulary: every label of the list has a defined comparator
key. -/
def keysDefined (ls : List String) : Prop :=
  ∀ l ∈ ls, (compareLabels l).isSome = true

/-- Property vocabulary: the labels are in canonical order, the comparator
keys never decreasing from left to right. -/
def labelsOrdered (ls : List String) : Prop :=
  ls.Pairwise (fun a b => keyD a ≤ keyD b)

/-- The header entries whose label classifies into the group named `n`, in
header order. -/
def entriesFor (n : String) (header : List (String × T)) : List (String × T) :=
  header.filter (fun e => classifyLabel e.1 == some n)

/-- Invariant of a catalog under construction: every stored label has a
defined comparator key. -/
def catKeysDefined (cat : Catalog T) : Prop :=
  ∀ p ∈ cat, keysDefined p.2.labels

/-- An EXR header: the channel dictionary plus the remaining metadata
attributes (their values abstracted as `M`). -/
structure EXRHeader (T M : Type) where
  channels : List (String × T)
  meta : List (String × M)
deriving DecidableEq, Repr

/-- Source: the fixed exclusion list of `EXRSequence.clean_header`. -/
def headerRemoveKeys : List String :=
  ["image:crop", "image:window", "renderMemory", "renderTime", "space:world",
   "worldToCamera", "worldToNDC", "order"]

/-- Source: `EXRSequence.clean_header` deletes each excluded key present in
the header. -/
def cleanHeader (h : EXRHeader T M) : EXRHeader T M :=
  { h with meta := h.meta.filter (fun p => p.1 ∉ headerRemoveKeys) }

/-- Description of the one output file written by a work unit: its subfolder,
filename, rewritten header and pixel buffers. -/
structure SavedFile (T M P : Type) where
  folder : String
  filename : String
  header : EXRHeader T M
  pixels : List (String × P)
deriving Repr

/-- Source: `EXRSequence.save_channel` for one work unit.  The outer
`Option` models an exception escaping the work unit; the inner `Option` is
`none` exactly when the unit returned early without writing a file (the
logged missing-channel skip). -/
def saveChannel [DecidableEq PT] (cat : Catalog (ImathChannel PT)) (folderPath : String)
    (fileStem fileSuffix : String) (channelName : String)
    (sourceHeader : EXRHeader (ImathChannel PT) M) (exr : String → PT → P) :
    Option (Option (SavedFile (ImathChannel PT) M P)) :=
  match lookupInfo channelName cat with
  | none => some none
  | some channelInfo =>
    let header0 := cleanHeader sourceHeader
    let header1 := { header0 with
      channels := channelInfo.getTargetChannels.map (fun c => (c, channelInfo.type)) }
    match appendChannelNameToFilename fileStem fileSuffix channelName with
    | none => none
    | some fname =>
      some (some
        { folder := folderPath ++ "/" ++ channelName
          filename := fname
          header := header1
          pixels := channelInfo.getPixelsData exr })

/-- Source: `EXRSequence._get_files`, the listing of the folder filtered to
the files matching the `*.exr` glob pattern (the filename ends in the
four characters dot e x r). -/
def getFiles (folderListing : List String) : List String :=
  folderListing.filter (fun f => (".exr" : String).data.isSuffixOf f.data)

/-- Source: `EXRSequence._get_header` reads the header of
`self._exr_files[0]`; `none` models the `IndexError` on an empty file
list. -/
def getHeaderOfFiles (readHeader : String → EXRHeader T M) :
    List String → Option (EXRHeader T M)
  | [] => none
  | f :: _ => some (readHeader f)

/-- Source: `EXRSequence.__init__`: enumerate the files, read the first
header, build the channel catalog.  `none` models an exception escaping the
constructor. -/
def mkEXRSequence [DecidableEq T] (folderListing : List String)
    (readHeader : String → EXRHeader T M) :
    Option (Catalog T × List BuildWarning) :=
  match getHeaderOfFiles readHeader (getFiles folderListing) with
  | none => none
  | some header => getChannelsInfo header.channels

/-! ### Lemmas about the comparator and the label sort -/

theorem attachKeys_some_iff {ls : List String} {ks : List (Nat × String)} :
    attachKeys ls = some ks ↔
      keysDefined ls ∧ ks = ls.map (fun l => (keyD l, l)) := by
  induction ls generalizing ks with
  | nil =>
    simp [attachKeys, keysDefined]
  | cons l rest ih =>
    constructor
    · intro h
      rw [attachKeys] at h
      rcases hc : compareLabels l with _ | k <;> rw [hc] at h
      · cases h
      rcases hr : attachKeys rest with _ | ks' <;> rw [hr] at h
      · cases h
      cases h
      rcases ih.mp hr with ⟨hkd, hks⟩
      refine ⟨?_, ?_⟩
      · intro x hx
        rcases List.mem_cons.mp hx with hx | hx
        · subst hx; simp [hc]
        · exact hkd x hx
      · simp only [List.map_cons, hks, List.cons_inj_right]
        congr 1
        simp [keyD, hc]
    · rintro ⟨hkd, rfl⟩
      have hc : (compareLabels l).isSome = true := hkd l (List.mem_cons_self l rest)
      rcases hco : compareLabels l with _ | k
      · rw [hco] at hc; cases hc
      have hrest : attachKeys rest = some (rest.map (fun l => (keyD l, l))) :=
        ih.mpr ⟨fun x hx => hkd x (List.mem_cons_of_mem _ hx), rfl⟩
      rw [attachKeys, hco, hrest]
      simp [keyD, hco]

theorem sortLabels_some_spec {ls out : List String} (h : sortLabels ls = some out) :
    out.Perm ls ∧ labelsOrdered out ∧ keysDefined ls := by
  rw [sortLabels] at h
  rcases ha : attachKeys ls with _ | keyed <;> rw [ha] at h
  · cases h
  cases h
  rcases attachKeys_some_iff.mp ha with ⟨hkd, rfl⟩
  refine ⟨?_, ?_, hkd⟩
  · have hp := (ls.map (fun l => (keyD l, l))).perm_insertionSort keyLE
    have h2 := hp.map Prod.snd
    have h3 : (ls.map (fun l => (keyD l, l))).map Prod.snd = ls := by
      rw [List.map_map]
      exact List.map_id'' (fun l => rfl) ls
    rw [h3] at h2
    exact h2
  · have hs := (ls.map (fun l => (keyD l, l))).sorted_insertionSort keyLE
    have hform : ∀ p ∈ ((ls.map (fun l => (keyD l, l))).insertionSort keyLE),
        p.1 = keyD p.2 := by
      intro p hp
      have hp' : p ∈ ls.map (fun l => (keyD l, l)) :=
        (List.mem_insertionSort keyLE).mp hp
      rcases List.mem_map.mp hp' with ⟨l, _, rfl⟩
      rfl
    rw [labelsOrdered, List.pairwise_map]
    refine hs.imp_of_mem ?_
    intro a b ha hb hab
    have h1 := hform a ha
    have h2 := hform b hb
    rw [keyLE, h1, h2] at hab
    exact hab

theorem sortLabels_isSome {ls : List String} (h : keysDefined ls) :
    ∃ out, sortLabels ls = some out := by
  refine ⟨((ls.map (fun l => (keyD l, l))).insertionSort keyLE).map Prod.snd, ?_⟩
  rw [sortLabels, attachKeys_some_iff.mpr ⟨h, rfl⟩]
  rfl

theorem eq_of_perm_of_labelsOrdered {l1 l2 : List String} (hp : l1.Perm l2)
    (hs1 : labelsOrdered l1) (hs2 : labelsOrdered l2)
    (hnd : (l1.map keyD).Nodup) : l1 = l2 := by
  induction l1 generalizing l2 with
  | nil =>
    exact (hp.nil_eq)
  | cons a t1 ih =>
    rcases l2 with _ | ⟨b, t2⟩
    · exact absurd hp.symm.nil_eq (by simp)
    by_cases hab : a = b
    · subst hab
      have ht : t1.Perm t2 := hp.cons_inv
      have := ih ht (List.Pairwise.of_cons hs1) (List.Pairwise.of_cons hs2)
        (by simpa using (List.nodup_cons.mp (by simpa using hnd)).2)
      rw [this]
    · exfalso
      have hbin : b ∈ a :: t1 := hp.mem_iff.mpr (List.mem_cons_self b t2)
      have hbt1 : b ∈ t1 := by
        rcases List.mem_cons.mp hbin with h | h
        · exact absurd h.symm hab
        · exact h
      have hain : a ∈ b :: t2 := hp.mem_iff.mp (List.mem_cons_self a t1)
      have hat2 : a ∈ t2 := by
        rcases List.mem_cons.mp hain with h | h
        · exact absurd h hab
        · exact h
      have h1 : keyD a ≤ keyD b := List.rel_of_pairwise_cons hs1 hbt1
      have h2 : keyD b ≤ keyD a := List.rel_of_pairwise_cons hs2 hat2
      have heq : keyD a = keyD b := Nat.le_antisymm h1 h2
      have : keyD a ∉ t1.map keyD := (List.nodup_cons.mp (by simpa using hnd)).1
      exact this (heq ▸ List.mem_map_of_mem keyD hbt1)

/-! ### Lemmas about adding labels to a group -/

theorem addLabel_some_spec {T : Type} {info info' : EXRChannelInfo T} {label : String}
    (h : info.addLabel label = some info') :
    info'.name = info.name ∧ info'.type = info.type ∧
      info'.labels.Perm (info.labels ++ [label]) ∧ labelsOrdered info'.labels ∧
      keysDefined (info.labels ++ [label]) := by
  rw [EXRChannelInfo.addLabel] at h
  rcases hs : sortLabels (info.labels ++ [label]) with _ | out <;> rw [hs] at h
  · cases h
  cases h
  rcases sortLabels_some_spec hs with ⟨hperm, hord, hkd⟩
  exact ⟨rfl, rfl, hperm, hord, hkd⟩

theorem addLabel_isSome {T : Type} {info : EXRChannelInfo T} {label : String}
    (h1 : keysDefined info.labels) (h2 : (compareLabels label).isSome = true) :
    ∃ info', info.addLabel label = some info' := by
  have hkd : keysDefined (info.labels ++ [label]) := by
    intro x hx
    rcases List.mem_append.mp hx with hx | hx
    · exact h1 x hx
    · rcases List.mem_singleton.mp hx with rfl
      exact h2
  rcases sortLabels_isSome hkd with ⟨out, hout⟩
  exact ⟨{ info with labels := out }, by rw [EXRChannelInfo.addLabel, hout]; rfl⟩

theorem addLabels_some_spec {T : Type} {ls : List String} :
    ∀ {info info' : EXRChannelInfo T}, info.addLabels ls = some info' →
      info'.name = info.name ∧ info'.type = info.type ∧
        info'.labels.Perm (info.labels ++ ls) ∧
        (labelsOrdered info.labels → labelsOrdered info'.labels) := by
  induction ls with
  | nil =>
    intro info info' h
    rw [EXRChannelInfo.addLabels] at h
    cases h
    exact ⟨rfl, rfl, by simp, fun h => h⟩
  | cons l rest ih =>
    intro info info' h
    rw [EXRChannelInfo.addLabels] at h
    rcases ha : info.addLabel l with _ | i1 <;> rw [ha] at h
    · cases h
    rcases addLabel_some_spec ha with ⟨hn1, ht1, hp1, ho1, _⟩
    rcases ih h with ⟨hn2, ht2, hp2, _⟩
    refine ⟨hn2.trans hn1, ht2.trans ht1, ?_, fun _ => ?_⟩
    · have : (i1.labels ++ rest).Perm ((info.labels ++ [l]) ++ rest) :=
        hp1.append_right rest
      have h3 := hp2.trans this
      simpa [List.append_assoc] using h3
    · rcases ih h with ⟨_, _, _, hord⟩
      exact hord ho1

theorem addLabels_isSome {T : Type} {ls : List String} :
    ∀ {info : EXRChannelInfo T}, keysDefined info.labels → keysDefined ls →
      ∃ info', info.addLabels ls = some info' := by
  induction ls with
  | nil =>
    intro info _ _
    exact ⟨info, rfl⟩
  | cons l rest ih =>
    intro info h1 h2
    rcases addLabel_isSome h1 (h2 l (List.mem_cons_self l rest)) with ⟨i1, hi1⟩
    rcases addLabel_some_spec hi1 with ⟨_, _, hp, _, hkd⟩
    have h1' : keysDefined i1.labels := by
      intro x hx
      exact hkd x (hp.mem_iff.mp hx)
    rcases ih h1' (fun x hx => h2 x (List.mem_cons_of_mem _ hx)) with ⟨info', hinfo'⟩
    refine ⟨info', ?_⟩
    rw [EXRChannelInfo.addLabels, hi1]
    exact hinfo'

/-! ### Lemmas about the catalog dictionary -/

theorem lookupInfo_nil {T : Type} {n : String} : lookupInfo n ([] : Catalog T) = none := rfl

theorem lookupInfo_cons {T : Type} {n m : String} {i : EXRChannelInfo T} {rest : Catalog T} :
    lookupInfo n ((m, i) :: rest) = if m = n then some i else lookupInfo n rest := by
  by_cases h : m = n
  · simp [lookupInfo, List.find?_cons, h]
  · simp [lookupInfo, List.find?_cons, h]

theorem lookupInfo_append_left {T : Type} {n : String} {cat cat2 : Catalog T}
    {i : EXRChannelInfo T} (h : lookupInfo n cat = some i) :
    lookupInfo n (cat ++ cat2) = some i := by
  induction cat with
  | nil => cases h
  | cons p rest ih =>
    rcases p with ⟨m, j⟩
    rw [lookupInfo_cons] at h
    by_cases hm : m = n
    · rw [if_pos hm] at h
      rw [List.cons_append, lookupInfo_cons, if_pos hm]
      exact h
    · rw [if_neg hm] at h
      rw [List.cons_append, lookupInfo_cons, if_neg hm]
      exact ih h

theorem lookupInfo_append_none {T : Type} {n : String} {cat cat2 : Catalog T}
    (h : lookupInfo n cat = none) :
    lookupInfo n (cat ++ cat2) = lookupInfo n cat2 := by
  induction cat with
  | nil => simp
  | cons p rest ih =>
    rcases p with ⟨m, j⟩
    rw [lookupInfo_cons] at h
    by_cases hm : m = n
    · rw [if_pos hm] at h; cases h
    · rw [if_neg hm] at h
      rw [List.cons_append, lookupInfo_cons, if_neg hm]
      exact ih h

theorem lookupInfo_append_singleton_self {T : Type} {n : String} {cat : Catalog T}
    {i : EXRChannelInfo T} (h : lookupInfo n cat = none) :
    lookupInfo n (cat ++ [(n, i)]) = some i := by
  rw [lookupInfo_append_none h, lookupInfo_cons, if_pos rfl]

theorem lookupInfo_append_singleton_ne {T : Type} {n m : String} {cat : Catalog T}
    {i : EXRChannelInfo T} (hne : m ≠ n) :
    lookupInfo n (cat ++ [(m, i)]) = lookupInfo n cat := by
  rcases hc : lookupInfo n cat with _ | j
  · rw [lookupInfo_append_none hc, lookupInfo_cons, if_neg hne, lookupInfo_nil]
  · exact lookupInfo_append_left hc

theorem lookupInfo_isSome_iff_mem {T : Type} {n : String} {cat : Catalog T} :
    (lookupInfo n cat).isSome = true ↔ n ∈ cat.map Prod.fst := by
  induction cat with
  | nil => simp [lookupInfo_nil]
  | cons p rest ih =>
    rcases p with ⟨m, j⟩
    rw [lookupInfo_cons]
    by_cases hm : m = n
    · subst hm
      simp
    · rw [if_neg hm]
      simp only [List.map_cons, List.mem_cons]
      rw [ih]
      constructor
      · intro h
        exact Or.inr h
      · intro h
        rcases h with h | h
        · exact absurd h.symm hm
        · exact h

theorem updateInfo_lookup_found {T : Type} {m : String}
    {f : EXRChannelInfo T → Option (EXRChannelInfo T)} {cat cat' : Catalog T}
    {i : EXRChannelInfo T} (hu : updateInfo m f cat = some cat')
    (hl : lookupInfo m cat = some i) :
    ∃ i', f i = some i' ∧ lookupInfo m cat' = some i' := by
  induction cat generalizing cat' with
  | nil => cases hl
  | cons p rest ih =>
    rcases p with ⟨k, j⟩
    rw [lookupInfo_cons] at hl
    rw [updateInfo] at hu
    by_cases hk : k = m
    · rw [if_pos hk] at hu
      rw [if_pos hk] at hl
      cases hl
      rcases hf : f i with _ | i' <;> rw [hf] at hu
      · cases hu
      cases hu
      exact ⟨i', rfl, by rw [lookupInfo_cons, if_pos hk]⟩
    · rw [if_neg hk] at hu
      rw [if_neg hk] at hl
      rcases hr : updateInfo m f rest with _ | c' <;> rw [hr] at hu
      · cases hu
      cases hu
      rcases ih hr hl with ⟨i', hf, hl'⟩
      exact ⟨i', hf, by rw [lookupInfo_cons, if_neg hk]; exact hl'⟩

theorem updateInfo_lookup_ne {T : Type} {m n : String}
    {f : EXRChannelInfo T → Option (EXRChannelInfo T)} {cat cat' : Catalog T}
    (hu : updateInfo m f cat = some cat') (hne : n ≠ m) :
    lookupInfo n cat' = lookupInfo n cat := by
  induction cat generalizing cat' with
  | nil =>
    rw [updateInfo] at hu
    cases hu
    rfl
  | cons p rest ih =>
    rcases p with ⟨k, j⟩
    rw [updateInfo] at hu
    by_cases hk : k = m
    · rw [if_pos hk] at hu
      rcases hf : f j with _ | i' <;> rw [hf] at hu
      · cases hu
      cases hu
      rw [lookupInfo_cons, lookupInfo_cons]
      have hknn : k ≠ n := by
        intro h
        exact hne (h ▸ hk)
      rw [if_neg hknn, if_neg hknn]
    · rw [if_neg hk] at hu
      rcases hr : updateInfo m f rest with _ | c' <;> rw [hr] at hu
      · cases hu
      cases hu
      rw [lookupInfo_cons, lookupInfo_cons]
      by_cases hkn : k = n
      · rw [if_pos hkn, if_pos hkn]
      · rw [if_neg hkn, if_neg hkn]
        exact ih hr

theorem updateInfo_isSome {T : Type} {m : String}
    {f : EXRChannelInfo T → Option (EXRChannelInfo T)} {cat : Catalog T}
    {i i' : EXRChannelInfo T} (hl : lookupInfo m cat = some i) (hf : f i = some i') :
    ∃ cat', updateInfo m f cat = some cat' := by
  induction cat with
  | nil => cases hl
  | cons p rest ih =>
    rcases p with ⟨k, j⟩
    rw [lookupInfo_cons] at hl
    by_cases hk : k = m
    · rw [if_pos hk] at hl
      cases hl
      exact ⟨(k, i') :: rest, by rw [updateInfo, if_pos hk, hf]; rfl⟩
    · rw [if_neg hk] at hl
      rcases ih hl with ⟨c', hc'⟩
      exact ⟨(k, j) :: c', by rw [updateInfo, if_neg hk, hc']; rfl⟩

theorem updateInfo_keys {T : Type} {m : String}
    {f : EXRChannelInfo T → Option (EXRChannelInfo T)} {cat cat' : Catalog T}
    (hu : updateInfo m f cat = some cat') :
    cat'.map Prod.fst = cat.map Prod.fst := by
  induction cat generalizing cat' with
  | nil =>
    rw [updateInfo] at hu
    cases hu
    rfl
  | cons p rest ih =>
    rcases p with ⟨k, j⟩
    rw [updateInfo] at hu
    by_cases hk : k = m
    · rw [if_pos hk] at hu
      rcases hf : f j with _ | i' <;> rw [hf] at hu
      · cases hu
      cases hu
      rfl
    · rw [if_neg hk] at hu
      rcases hr : updateInfo m f rest with _ | c' <;> rw [hr] at hu
      · cases hu
      cases hu
      simp [ih hr]

theorem updateInfo_mem {T : Type} {m : String}
    {f : EXRChannelInfo T → Option (EXRChannelInfo T)} {cat cat' : Catalog T}
    (hu : updateInfo m f cat = some cat') :
    ∀ p ∈ cat', p ∈ cat ∨ ∃ i, (m, i) ∈ cat ∧ f i = some p.2 := by
  induction cat generalizing cat' with
  | nil =>
    rw [updateInfo] at hu
    cases hu
    intro p hp
    cases hp
  | cons q rest ih =>
    rcases q with ⟨k, j⟩
    rw [updateInfo] at hu
    by_cases hk : k = m
    · rw [if_pos hk] at hu
      rcases hf : f j with _ | i' <;> rw [hf] at hu
      · cases hu
      cases hu
      intro p hp
      rcases List.mem_cons.mp hp with rfl | hp
      · exact Or.inr ⟨j, by rw [hk]; exact List.mem_cons_self _ _, hf⟩
      · exact Or.inl (List.mem_cons_of_mem _ hp)
    · rw [if_neg hk] at hu
      rcases hr : updateInfo m f rest with _ | c' <;> rw [hr] at hu
      · cases hu
      cases hu
      intro p hp
      rcases List.mem_cons.mp hp with rfl | hp
      · exact Or.inl (List.mem_cons_self _ _)
      · rcases ih hr p hp with h | ⟨i, hi, hfi⟩
        · exact Or.inl (List.mem_cons_of_mem _ h)
        · exact Or.inr ⟨i, List.mem_cons_of_mem _ hi, hfi⟩

/-! ### The header scan, viewed one group at a time -/

theorem buildStep_unrecognized {T : Type} [DecidableEq T] {acc : Catalog T}
    {ws : List BuildWarning} {label : String} {t : T}
    (hcl : classifyLabel label = none) :
    buildStep (acc, ws) (label, t) = some (acc, ws ++ [BuildWarning.unrecognized label]) := by
  simp [buildStep, hcl]

theorem buildStep_create {T : Type} [DecidableEq T] {acc : Catalog T}
    {ws : List BuildWarning} {label : String} {t : T} {m : String}
    (hcl : classifyLabel label = some m) (hl : lookupInfo m acc = none) :
    buildStep (acc, ws) (label, t) =
      ((EXRChannelInfo.mk m t []).addLabel label).map
        (fun info => (acc ++ [(m, info)], ws)) := by
  simp [buildStep, hcl, hl]

theorem buildStep_update {T : Type} [DecidableEq T] {acc : Catalog T}
    {ws : List BuildWarning} {label : String} {t : T} {m : String}
    {info : EXRChannelInfo T}
    (hcl : classifyLabel label = some m) (hl : lookupInfo m acc = some info) :
    buildStep (acc, ws) (label, t) =
      (updateInfo m (fun i => i.addLabel label) acc).map
        (fun c => (c, if t ≠ info.type then ws ++ [BuildWarning.typeMismatch m label]
                      else ws)) := by
  simp only [buildStep, hcl, hl]

theorem buildFold_groupFold {T : Type} [DecidableEq T] {header : List (String × T)} :
    ∀ {acc : Catalog T} {ws : List BuildWarning} {cat : Catalog T}
      {ws' : List BuildWarning},
      buildFold (acc, ws) header = some (cat, ws') →
      ∀ n, groupFold n (lookupInfo n acc) header = some (lookupInfo n cat) := by
  induction header with
  | nil =>
    intro acc ws cat ws' h n
    rw [buildFold] at h
    cases h
    rfl
  | cons e rest ih =>
    intro acc ws cat ws' h n
    rcases e with ⟨label, t⟩
    rw [buildFold] at h
    rcases hcl : classifyLabel label with _ | m
    · -- unrecognized label: catalog unchanged
      rw [buildStep_unrecognized hcl] at h
      have hcond : ¬ (classifyLabel label = some n) := by simp [hcl]
      rw [groupFold, if_neg hcond]
      exact ih h n
    · rcases hl : lookupInfo m acc with _ | info
      · -- group created on first encounter
        rcases hadd : (EXRChannelInfo.mk m t []).addLabel label with _ | info1 <;>
            rw [buildStep_create hcl hl, hadd] at h
        · cases h
        simp only [Option.map_some'] at h
        by_cases hmn : m = n
        · subst hmn
          rw [groupFold, if_pos hcl, hl]
          simp only [Option.getD, hadd]
          have hres := ih h m
          rw [lookupInfo_append_singleton_self hl] at hres
          exact hres
        · have hcond : ¬ (classifyLabel label = some n) := by
            rw [hcl]
            intro hc
            exact hmn (Option.some.inj hc)
          rw [groupFold, if_neg hcond]
          have hres := ih h n
          rw [lookupInfo_append_singleton_ne hmn] at hres
          exact hres
      · -- existing group updated
        rcases hup : updateInfo m (fun i => i.addLabel label) acc with _ | cat1 <;>
            rw [buildStep_update hcl hl, hup] at h
        · cases h
        simp only [Option.map_some'] at h
        by_cases hmn : m = n
        · subst hmn
          rcases updateInfo_lookup_found hup hl with ⟨i', hf, hl'⟩
          rw [groupFold, if_pos hcl, hl]
          simp only [Option.getD, hf]
          have hres := ih h m
          rw [hl'] at hres
          exact hres
        · have hcond : ¬ (classifyLabel label = some n) := by
            rw [hcl]
            intro hc
            exact hmn (Option.some.inj hc)
          rw [groupFold, if_neg hcond]
          have hres := ih h n
          rw [updateInfo_lookup_ne hup (Ne.symm hmn)] at hres
          exact hres

theorem buildFold_keys_nodup {T : Type} [DecidableEq T] {header : List (String × T)} :
    ∀ {acc : Catalog T} {ws : List BuildWarning} {cat : Catalog T}
      {ws' : List BuildWarning},
      buildFold (acc, ws) header = some (cat, ws') →
      (acc.map Prod.fst).Nodup → (cat.map Prod.fst).Nodup := by
  induction header with
  | nil =>
    intro acc ws cat ws' h hnd
    rw [buildFold] at h
    cases h
    exact hnd
  | cons e rest ih =>
    intro acc ws cat ws' h hnd
    rcases e with ⟨label, t⟩
    rw [buildFold] at h
    rcases hcl : classifyLabel label with _ | m
    · rw [buildStep_unrecognized hcl] at h
      exact ih h hnd
    · rcases hl : lookupInfo m acc with _ | info
      · rcases hadd : (EXRChannelInfo.mk m t []).addLabel label with _ | info1 <;>
            rw [buildStep_create hcl hl, hadd] at h
        · cases h
        simp only [Option.map_some'] at h
        refine ih h ?_
        have hm : m ∉ acc.map Prod.fst := by
          intro hmem
          have := lookupInfo_isSome_iff_mem.mpr hmem
          rw [hl] at this
          cases this
        simp only [List.map_append, List.map_cons, List.map_nil]
        rw [List.nodup_append]
        refine ⟨hnd, List.nodup_singleton m, ?_⟩
        intro a ha hb
        rcases List.mem_singleton.mp hb with rfl
        exact hm ha
      · rcases hup : updateInfo m (fun i => i.addLabel label) acc with _ | cat1 <;>
            rw [buildStep_update hcl hl, hup] at h
        · cases h
        simp only [Option.map_some'] at h
        refine ih h ?_
        rw [updateInfo_keys hup]
        exact hnd

theorem buildFold_isSome {T : Type} [DecidableEq T] {header : List (String × T)} :
    ∀ {acc : Catalog T} {ws : List BuildWarning},
      catKeysDefined acc →
      (∀ e ∈ header, ∀ n, classifyLabel e.1 = some n → (compareLabels e.1).isSome = true) →
      ∃ cat ws', buildFold (acc, ws) header = some (cat, ws') ∧ catKeysDefined cat := by
  induction header with
  | nil =>
    intro acc ws hinv _
    exact ⟨acc, ws, rfl, hinv⟩
  | cons e rest ih =>
    intro acc ws hinv hcls
    rcases e with ⟨label, t⟩
    rcases hcl : classifyLabel label with _ | m
    · rcases ih hinv (fun e he => hcls e (List.mem_cons_of_mem _ he)) with ⟨cat, ws', hf, hc⟩
      exact ⟨cat, ws', by rw [buildFold, buildStep_unrecognized hcl]; exact hf, hc⟩
    · have hkey : (compareLabels label).isSome = true := hcls (label, t) (List.mem_cons_self _ _) m hcl
      rcases hl : lookupInfo m acc with _ | info
      · have hexadd : ∃ info1, (EXRChannelInfo.mk m t []).addLabel label = some info1 :=
          addLabel_isSome (fun x hx => absurd hx (List.not_mem_nil x)) hkey
        rcases hexadd with ⟨info1, hadd⟩
        have hinv1 : catKeysDefined (acc ++ [(m, info1)]) := by
          intro p hp
          rcases List.mem_append.mp hp with hp | hp
          · exact hinv p hp
          · rcases List.mem_singleton.mp hp with rfl
            rcases addLabel_some_spec hadd with ⟨_, _, hperm, _, hkd⟩
            intro x hx
            exact hkd x (hperm.mem_iff.mp hx)
        rcases ih hinv1 (fun e he => hcls e (List.mem_cons_of_mem _ he)) with ⟨cat, ws', hf, hc⟩
        refine ⟨cat, ws', ?_, hc⟩
        rw [buildFold, buildStep_create hcl hl, hadd, Option.map_some']
        exact hf
      · have hfound : (m, info) ∈ acc := by
          rw [lookupInfo] at hl
          rcases hfind : acc.find? (fun p => p.1 == m) with _ | q <;> rw [hfind] at hl
          · cases hl
          · have hq := List.find?_some hfind
            have hqm : q.1 = m := by
              simpa using hq
            have hqmem := List.mem_of_find?_eq_some hfind
            cases hl
            rcases q with ⟨q1, q2⟩
            simp only at hqm
            rw [hqm] at hqmem
            exact hqmem
        have hkinfo : keysDefined info.labels := hinv (m, info) hfound
        rcases addLabel_isSome hkinfo hkey with ⟨i', hadd⟩
        rcases updateInfo_isSome (f := fun i => i.addLabel label) hl hadd with ⟨cat1, hup⟩
        have hinv1 : catKeysDefined cat1 := by
          intro p hp
          rcases updateInfo_mem hup p hp with hp | ⟨i, hi, hfi⟩
          · exact hinv p hp
          · have hki : keysDefined i.labels := hinv (m, i) hi
            rcases addLabel_some_spec hfi with ⟨_, _, hperm, _, hkd⟩
            intro x hx
            exact hkd x (hperm.mem_iff.mp hx)
        rcases ih hinv1 (fun e he => hcls e (List.mem_cons_of_mem _ he)) with ⟨cat, ws', hf, hc⟩
        refine ⟨cat, ws', ?_, hc⟩
        rw [buildFold, buildStep_update hcl hl, hup, Option.map_some']
        exact hf

theorem lookupInfo_filter_none {T : Type} {n : String} {cat : Catalog T}
    {g : String × EXRChannelInfo T → Bool} (h : lookupInfo n cat = none) :
    lookupInfo n (cat.filter g) = none := by
  induction cat with
  | nil => rfl
  | cons p rest ih =>
    rcases p with ⟨m, i⟩
    rw [lookupInfo_cons] at h
    by_cases hm : m = n
    · rw [if_pos hm] at h; cases h
    · rw [if_neg hm] at h
      rw [List.filter_cons]
      by_cases hg : g (m, i)
      · rw [if_pos hg, lookupInfo_cons, if_neg hm]
        exact ih h
      · rw [if_neg hg]
        exact ih h

theorem lookupInfo_filter_valid {T : Type} {n : String} {cat : Catalog T}
    (hnd : (cat.map Prod.fst).Nodup) :
    lookupInfo n (cat.filter (fun p => p.2.isValid)) =
      (lookupInfo n cat).bind (fun i => if i.isValid then some i else none) := by
  induction cat with
  | nil => rfl
  | cons p rest ih =>
    rcases p with ⟨m, i⟩
    have hnd' : (rest.map Prod.fst).Nodup := (List.nodup_cons.mp (by simpa using hnd)).2
    have hmni : m ∉ rest.map Prod.fst := (List.nodup_cons.mp (by simpa using hnd)).1
    rw [List.filter_cons]
    by_cases hg : (i : EXRChannelInfo T).isValid
    · rw [if_pos (by simpa using hg), lookupInfo_cons, lookupInfo_cons]
      by_cases hm : m = n
      · rw [if_pos hm, if_pos hm]
        simp [hg]
      · rw [if_neg hm, if_neg hm]
        exact ih hnd'
    · rw [if_neg (by simpa using hg), lookupInfo_cons]
      by_cases hm : m = n
      · rw [if_pos hm]
        have hrn : lookupInfo n rest = none := by
          rcases hr : lookupInfo n rest with _ | j
          · rfl
          · exfalso
            have := lookupInfo_isSome_iff_mem.mp (by rw [hr]; rfl)
            rw [← hm] at this
            exact hmni this
        rw [lookupInfo_filter_none hrn]
        simp [hg]
      · rw [if_neg hm]
        exact ih hnd'

theorem groupFold_some_start {T : Type} [DecidableEq T] {n : String}
    {header : List (String × T)} :
    ∀ {info : EXRChannelInfo T},
      groupFold n (some info) header =
        (info.addLabels ((entriesFor n header).map Prod.fst)).map some := by
  induction header with
  | nil =>
    intro info
    rfl
  | cons e rest ih =>
    intro info
    by_cases hc : classifyLabel e.1 = some n
    · have hbeq : (classifyLabel e.1 == some n) = true := by
        rw [hc]
        simp
      rw [groupFold, if_pos hc, entriesFor, List.filter_cons, if_pos hbeq]
      simp only [Option.getD, List.map_cons]
      rcases hadd : info.addLabel e.1 with _ | i1
      · rw [EXRChannelInfo.addLabels, hadd]
        rfl
      · rw [EXRChannelInfo.addLabels, hadd]
        exact ih
    · have hbeq : ¬ ((classifyLabel e.1 == some n) = true) := by
        simpa using hc
      rw [groupFold, if_neg hc, entriesFor, List.filter_cons, if_neg hbeq]
      exact ih

theorem groupFold_none_start {T : Type} [DecidableEq T] {n : String}
    {header : List (String × T)} :
    groupFold n none header =
      match entriesFor n header with
      | [] => some none
      | e :: _ =>
        ((EXRChannelInfo.mk n e.2 []).addLabels ((entriesFor n header).map Prod.fst)).map
          some := by
  induction header with
  | nil => rfl
  | cons e rest ih =>
    by_cases hc : classifyLabel e.1 = some n
    · have hbeq : (classifyLabel e.1 == some n) = true := by
        rw [hc]
        simp
      rw [groupFold, if_pos hc]
      simp only [entriesFor, List.filter_cons, if_pos hbeq, Option.getD, List.map_cons]
      rcases hadd : (EXRChannelInfo.mk n e.2 []).addLabel e.1 with _ | i1
      · rw [EXRChannelInfo.addLabels, hadd]
        rfl
      · rw [EXRChannelInfo.addLabels, hadd]
        exact groupFold_some_start
    · have hbeq : ¬ ((classifyLabel e.1 == some n) = true) := by
        simpa using hc
      rw [groupFold, if_neg hc]
      simp only [entriesFor, List.filter_cons, if_neg hbeq]
      rw [ih]
      rfl

theorem entriesFor_map_fst {T : Type} {n : String} {header : List (String × T)} :
    (header.map Prod.fst).filter (fun l => classifyLabel l == some n) =
      (entriesFor n header).map Prod.fst := by
  rw [entriesFor, List.filter_map]
  rfl

theorem lookup_of_entries_perm {T : Type} [DecidableEq T] {header : List (String × T)}
    {cat : Catalog T} {ws' : List BuildWarning} {n : String} {L : List String}
    (hb : buildFold ([], []) header = some (cat, ws'))
    (hperm : ((entriesFor n header).map Prod.fst).Perm L)
    (hne : L ≠ [])
    (hkd : keysDefined L) (hord : labelsOrdered L) (hnd : (L.map keyD).Nodup) :
    ∃ t, lookupInfo n cat = some (EXRChannelInfo.mk n t L) := by
  have hbridge := buildFold_groupFold hb n
  rw [lookupInfo_nil, groupFold_none_start] at hbridge
  rcases hes : entriesFor n header with _ | ⟨e, restes⟩
  · rw [hes] at hperm
    simp only [List.map_nil] at hperm
    exact absurd hperm.nil_eq.symm hne
  · simp only [hes] at hbridge
    rw [hes] at hperm
    have hkd' : keysDefined ((e :: restes).map Prod.fst) := by
      intro x hx
      exact hkd x (hperm.mem_iff.mp hx)
    have hkdnil : keysDefined ([] : List String) := by
      intro x hx
      cases hx
    have hexadd : ∃ info',
        (EXRChannelInfo.mk n e.2 []).addLabels ((e :: restes).map Prod.fst) = some info' :=
      addLabels_isSome hkdnil hkd'
    rcases hexadd with ⟨info', haddls⟩
    rw [haddls, Option.map_some'] at hbridge
    have hlook : lookupInfo n cat = some info' := (Option.some.inj hbridge).symm
    rcases addLabels_some_spec haddls with ⟨hname, htype, hpermL, hordimp⟩
    have hordi : labelsOrdered info'.labels := hordimp List.Pairwise.nil
    have hpermL2 : info'.labels.Perm L := by
      refine hpermL.trans ?_
      simpa using hperm
    have hndi : (info'.labels.map keyD).Nodup := by
      have := (hpermL2.map keyD).nodup_iff
      exact this.mpr hnd
    have hlab : info'.labels = L := eq_of_perm_of_labelsOrdered hpermL2 hordi hord hndi
    rcases info' with ⟨nm, tp, lb⟩
    simp only at hname htype hlab
    subst hname
    subst hlab
    exact ⟨tp, by rw [hlook, htype]⟩

theorem lookup_of_entries_nil {T : Type} [DecidableEq T] {header : List (String × T)}
    {cat : Catalog T} {ws' : List BuildWarning} {n : String}
    (hb : buildFold ([], []) header = some (cat, ws'))
    (hes : entriesFor n header = []) :
    lookupInfo n cat = none := by
  have hbridge := buildFold_groupFold hb n
  rw [lookupInfo_nil, groupFold_none_start] at hbridge
  simp only [hes] at hbridge
  exact (Option.some.inj hbridge).symm

/-! ### Classification facts -/

theorem classifyLabel_color {label : String}
    (h : label ∈ (["R", "G", "B", "A"] : List String)) :
    classifyLabel label = some "C" := by
  rw [classifyLabel, if_pos h]

theorem classifyLabel_depth {label : String} (h : label ∈ (["Z"] : List String)) :
    classifyLabel label = some "Z" := by
  rcases List.mem_singleton.mp h with rfl
  decide

theorem classifyLabel_dotted {label pre post : String}
    (hnot : label ∉ (["R", "G", "B", "A", "Z"] : List String))
    (hpre : ('.' : Char) ∉ pre.data) (hsplit : label = pre ++ "." ++ post) :
    classifyLabel label = some pre := by
  have hdot : ('.' : Char) ∈ label.data := by
    rw [hsplit]
    simp [String.data_append]
  have h1 : label ∉ (["R", "G", "B", "A"] : List String) := by
    intro h
    refine hnot ?_
    simp only [List.mem_cons, List.mem_singleton] at h ⊢
    tauto
  have h2 : label ∉ (["Z"] : List String) := by
    intro h
    refine hnot ?_
    simp only [List.mem_cons, List.mem_singleton] at h ⊢
    tauto
  rw [classifyLabel, if_neg h1, if_neg h2, if_pos hdot]
  congr 1
  rw [beforeFirstDot, hsplit]
  have hdata : (pre ++ "." ++ post).data = pre.data ++ ('.' :: post.data) := by
    simp [String.data_append]
  rw [hdata]
  have hall : ∀ a ∈ pre.data, (decide (a ≠ '.')) = true := by
    intro a ha
    simp only [ne_eq, decide_eq_true_eq]
    intro heq
    exact hpre (heq ▸ ha)
  rw [List.takeWhile_append_of_pos hall, List.takeWhile_cons]
  rw [if_neg (by simp)]
  rw [List.append_nil]

theorem classifyLabel_unrecognized {label : String}
    (hnot : label ∉ (["R", "G", "B", "A", "Z"] : List String))
    (hdot : ('.' : Char) ∉ label.data) :
    classifyLabel label = none := by
  have h1 : label ∉ (["R", "G", "B", "A"] : List String) := by
    intro h
    refine hnot ?_
    simp only [List.mem_cons, List.mem_singleton] at h ⊢
    tauto
  have h2 : label ∉ (["Z"] : List String) := by
    intro h
    refine hnot ?_
    simp only [List.mem_cons, List.mem_singleton] at h ⊢
    tauto
  rw [classifyLabel, if_neg h1, if_neg h2, if_neg hdot]

theorem filterL8_color :
    (["R", "G", "B", "A", "Z", "normal.X", "normal.Y", "normal.Z"] : List String).filter
      (fun l => classifyLabel l == some "C") = ["R", "G", "B", "A"] := by
  decide

theorem filterL8_depth :
    (["R", "G", "B", "A", "Z", "normal.X", "normal.Y", "normal.Z"] : List String).filter
      (fun l => classifyLabel l == some "Z") = ["Z"] := by
  decide

theorem filterL8_normal :
    (["R", "G", "B", "A", "Z", "normal.X", "normal.Y", "normal.Z"] : List String).filter
      (fun l => classifyLabel l == some "normal") =
      ["normal.X", "normal.Y", "normal.Z"] := by
  decide

theorem filterL8_other {n : String} (hC : n ≠ "C") (hZ : n ≠ "Z") (hN : n ≠ "normal") :
    (["R", "G", "B", "A", "Z", "normal.X", "normal.Y", "normal.Z"] : List String).filter
      (fun l => classifyLabel l == some n) = [] := by
  have h1 : classifyLabel "R" = some "C" := by decide
  have h2 : classifyLabel "G" = some "C" := by decide
  have h3 : classifyLabel "B" = some "C" := by decide
  have h4 : classifyLabel "A" = some "C" := by decide
  have h5 : classifyLabel "Z" = some "Z" := by decide
  have h6 : classifyLabel "normal.X" = some "normal" := by decide
  have h7 : classifyLabel "normal.Y" = some "normal" := by decide
  have h8 : classifyLabel "normal.Z" = some "normal" := by decide
  simp [List.filter_cons, h1, h2, h3, h4, h5, h6, h7, h8,
    Ne.symm hC, Ne.symm hZ, Ne.symm hN]

theorem compareLabels_L8 :
    ∀ l ∈ (["R", "G", "B", "A", "Z", "normal.X", "normal.Y", "normal.Z"] : List String),
      (compareLabels l).isSome = true := by
  decide

/-- C1: catalog building classifies each raw header label by the four rules
(exact match in R,G,B,A gives the group named C; exact match Z gives the
group named Z; a dotted label goes to the group named by the substring
before the first dot; any other label is skipped with a warning), and for
every header whose channel list is exactly R, G, B, A, Z, normal.X,
normal.Y, normal.Z (in any order, with any pixel types) the resulting
catalog holds exactly the groups C (labels R,G,B,A), Z (label Z) and
normal (labels normal.X, normal.Y, normal.Z), each valid. -/
theorem c1_catalog_classification {T : Type} [DecidableEq T]
    (header : List (String × T))
    (hperm : (header.map Prod.fst).Perm
      ["R", "G", "B", "A", "Z", "normal.X", "normal.Y", "normal.Z"]) :
    ((∀ label : String, label ∈ (["R", "G", "B", "A"] : List String) →
        classifyLabel label = some "C") ∧
     (∀ label : String, label ∈ (["Z"] : List String) → classifyLabel label = some "Z") ∧
     (∀ label pre post : String, label ∉ (["R", "G", "B", "A", "Z"] : List String) →
        ('.' : Char) ∉ pre.data → label = pre ++ "." ++ post →
        classifyLabel label = some pre) ∧
     (∀ label : String, label ∉ (["R", "G", "B", "A", "Z"] : List String) →
        ('.' : Char) ∉ label.data → classifyLabel label = none) ∧
     (∀ (cat0 : Catalog T) (ws0 : List BuildWarning) (label : String) (t : T),
        classifyLabel label = none →
        buildStep (cat0, ws0) (label, t) =
          some (cat0, ws0 ++ [BuildWarning.unrecognized label]))) ∧
    ∃ cat ws, getChannelsInfo header = some (cat, ws) ∧
      (cat.map Prod.fst).Perm ["C", "Z", "normal"] ∧
      (∃ tC, lookupInfo "C" cat = some (EXRChannelInfo.mk "C" tC ["R", "G", "B", "A"])) ∧
      (∃ tZ, lookupInfo "Z" cat = some (EXRChannelInfo.mk "Z" tZ ["Z"])) ∧
      (∃ tN, lookupInfo "normal" cat =
        some (EXRChannelInfo.mk "normal" tN ["normal.X", "normal.Y", "normal.Z"])) ∧
      ∀ p ∈ cat, p.2.isValid = true := by
  refine ⟨⟨fun label h => classifyLabel_color h,
          fun label h => classifyLabel_depth h,
          fun label pre post h1 h2 h3 => classifyLabel_dotted h1 h2 h3,
          fun label h1 h2 => classifyLabel_unrecognized h1 h2,
          fun cat0 ws0 label t h => buildStep_unrecognized h⟩, ?_⟩
  have hkeys : ∀ e ∈ header, ∀ n, classifyLabel e.1 = some n →
      (compareLabels e.1).isSome = true := by
    intro e he n _
    have hmem : e.1 ∈
        (["R", "G", "B", "A", "Z", "normal.X", "normal.Y", "normal.Z"] : List String) :=
      hperm.mem_iff.mp (List.mem_map_of_mem Prod.fst he)
    exact compareLabels_L8 e.1 hmem
  have hinv0 : catKeysDefined ([] : Catalog T) := by
    intro p hp
    cases hp
  rcases buildFold_isSome hinv0 hkeys with ⟨cat, ws', hb, _⟩
  have hnd : (cat.map Prod.fst).Nodup := buildFold_keys_nodup hb (by simp)
  have hpC : ((entriesFor "C" header).map Prod.fst).Perm ["R", "G", "B", "A"] := by
    have h1 := hperm.filter (fun l => classifyLabel l == some "C")
    rw [entriesFor_map_fst, filterL8_color] at h1
    exact h1
  have hpZ : ((entriesFor "Z" header).map Prod.fst).Perm ["Z"] := by
    have h1 := hperm.filter (fun l => classifyLabel l == some "Z")
    rw [entriesFor_map_fst, filterL8_depth] at h1
    exact h1
  have hpN : ((entriesFor "normal" header).map Prod.fst).Perm
      ["normal.X", "normal.Y", "normal.Z"] := by
    have h1 := hperm.filter (fun l => classifyLabel l == some "normal")
    rw [entriesFor_map_fst, filterL8_normal] at h1
    exact h1
  rcases lookup_of_entries_perm hb hpC (by simp)
    (by unfold keysDefined; decide) (by unfold labelsOrdered; decide) (by decide)
    with ⟨tC, hlC⟩
  rcases lookup_of_entries_perm hb hpZ (by simp)
    (by unfold keysDefined; decide) (by unfold labelsOrdered; decide) (by decide)
    with ⟨tZ, hlZ⟩
  rcases lookup_of_entries_perm hb hpN (by simp)
    (by unfold keysDefined; decide) (by unfold labelsOrdered; decide) (by decide)
    with ⟨tN, hlN⟩
  have hother : ∀ x : String, x ≠ "C" → x ≠ "Z" → x ≠ "normal" →
      lookupInfo x cat = none := by
    intro x hxC hxZ hxN
    have h1 := hperm.filter (fun l => classifyLabel l == some x)
    rw [entriesFor_map_fst, filterL8_other hxC hxZ hxN] at h1
    have h3 : entriesFor x header = [] := List.map_eq_nil_iff.mp h1.eq_nil
    exact lookup_of_entries_nil hb h3
  refine ⟨cat.filter (fun p => p.2.isValid),
    ws' ++ (cat.filter (fun p => !p.2.isValid)).map
      (fun p => BuildWarning.invalidGroup p.1 p.2.labels), ?_, ?_, ?_, ?_, ?_, ?_⟩
  · rw [getChannelsInfo, hb, Option.map_some']
  · have hfsub : List.Sublist ((cat.filter (fun p => p.2.isValid)).map Prod.fst)
        (cat.map Prod.fst) :=
      (List.filter_sublist cat).map Prod.fst
    have hfnd : ((cat.filter (fun p => p.2.isValid)).map Prod.fst).Nodup :=
      List.Nodup.sublist hfsub hnd
    refine (List.perm_ext_iff_of_nodup hfnd (by decide)).mpr ?_
    intro x
    constructor
    · intro hx
      by_contra hnotin
      have hxC : x ≠ "C" := fun h => hnotin (by rw [h]; simp)
      have hxZ : x ≠ "Z" := fun h => hnotin (by rw [h]; simp)
      have hxN : x ≠ "normal" := fun h => hnotin (by rw [h]; simp)
      have hln := hother x hxC hxZ hxN
      have hfn := lookupInfo_filter_none (g := fun p => p.2.isValid) hln
      have hsome := lookupInfo_isSome_iff_mem.mpr hx
      rw [hfn] at hsome
      cases hsome
    · intro hx
      have hflt := lookupInfo_filter_valid (n := x) hnd
      have hx3 : x = "C" ∨ x = "Z" ∨ x = "normal" := by simpa using hx
      rcases hx3 with rfl | rfl | rfl
      · apply lookupInfo_isSome_iff_mem.mp
        rw [hflt, hlC]
        rfl
      · apply lookupInfo_isSome_iff_mem.mp
        rw [hflt, hlZ]
        rfl
      · apply lookupInfo_isSome_iff_mem.mp
        rw [hflt, hlN]
        rfl
  · refine ⟨tC, ?_⟩
    rw [lookupInfo_filter_valid hnd, hlC]
    rfl
  · refine ⟨tZ, ?_⟩
    rw [lookupInfo_filter_valid hnd, hlZ]
    rfl
  · refine ⟨tN, ?_⟩
    rw [lookupInfo_filter_valid hnd, hlN]
    rfl
  · intro p hp
    exact (List.mem_filter.mp hp).2

/-- C3: a group is valid exactly when it is a depth group with exactly one
label or a non-depth group with exactly 3 or 4 labels, and every group the
catalog exposes after construction is valid (invalid groups were removed). -/
theorem c3_group_validity {T : Type} [DecidableEq T] :
    (∀ info : EXRChannelInfo T, info.isValid = true ↔
      ((info.isDepth = true ∧ info.labels.length = 1) ∨
       (info.isDepth = false ∧ (info.labels.length = 3 ∨ info.labels.length = 4)))) ∧
    (∀ (header : List (String × T)) (cat : Catalog T) (ws : List BuildWarning),
      getChannelsInfo header = some (cat, ws) → ∀ p ∈ cat, p.2.isValid = true) := by
  constructor
  · intro info
    cases hd : info.isDepth <;> simp [EXRChannelInfo.isValid, hd]
  · intro header cat ws h p hp
    rw [getChannelsInfo] at h
    rcases hb : buildFold ([], []) header with _ | st <;> rw [hb] at h
    · cases h
    rcases st with ⟨cc, ww⟩
    simp only [Option.map_some'] at h
    cases h
    exact (List.mem_filter.mp hp).2

/-- C4: the target slots of a group are the prefix of R,G,B,A of the
group's label count (so when the count is at most 4 the two lengths agree),
and the pixel mapping sends target slot i to the pixel data of label index
0 for depth groups and label index i otherwise. -/
theorem c4_target_slots {PT P : Type} (info : EXRChannelInfo (ImathChannel PT))
    (exr : String → PT → P) :
    info.getTargetChannels = (["R", "G", "B", "A"] : List String).take info.labels.length ∧
    info.getTargetChannels.length = min info.labels.length 4 ∧
    (info.labels.length ≤ 4 → info.getTargetChannels.length = info.labels.length) ∧
    (info.getPixelsData exr).length = info.getTargetChannels.length ∧
    ∀ i : Nat, (info.getPixelsData exr)[i]? =
      (info.getTargetChannels[i]?).map
        (fun tc => (tc, exr (info.labels.getD (if info.isDepth then 0 else i) "")
          info.getPixelType)) := by
  refine ⟨rfl, ?_, ?_, ?_, ?_⟩
  · rw [EXRChannelInfo.getTargetChannels, List.length_take]
    rfl
  · intro h
    rw [EXRChannelInfo.getTargetChannels, List.length_take]
    exact Nat.min_eq_left h
  · rw [EXRChannelInfo.getPixelsData, List.length_map, List.enum_eq_enumFrom,
      List.enumFrom_length]
  · intro i
    rw [EXRChannelInfo.getPixelsData, List.getElem?_map, List.enum_eq_enumFrom,
      List.getElem?_enumFrom]
    rcases ht : info.getTargetChannels[i]? with _ | tc
    · rfl
    · simp

/-! ### Lemmas about the filename transformer -/

theorem popWhile_all {p : Char → Bool} :
    ∀ {l acc : List Char}, (∀ c ∈ l, p c = true) → popWhile p l acc = none := by
  intro l
  induction l with
  | nil =>
    intro acc _
    rfl
  | cons c rest ih =>
    intro acc h
    rw [popWhile, if_pos (h c (List.mem_cons_self c rest))]
    exact ih (fun x hx => h x (List.mem_cons_of_mem _ hx))

theorem popWhile_spec {p : Char → Bool} :
    ∀ {l : List Char} (acc : List Char), (∃ c ∈ l, p c = false) →
      popWhile p l acc = some (l.dropWhile p, (l.takeWhile p).reverse ++ acc) := by
  intro l
  induction l with
  | nil =>
    intro acc h
    rcases h with ⟨c, hc, _⟩
    cases hc
  | cons c rest ih =>
    intro acc h
    rcases hpc : p c with _ | _
    · rw [popWhile, if_neg (by simp [hpc])]
      rw [List.dropWhile_cons_of_neg (by simp [hpc]), List.takeWhile_cons_of_neg (by simp [hpc])]
      simp
    · rw [popWhile, if_pos hpc]
      have hwit : ∃ x ∈ rest, p x = false := by
        rcases h with ⟨x, hx, hpx⟩
        rcases List.mem_cons.mp hx with rfl | hx
        · rw [hpc] at hpx
          cases hpx
        · exact ⟨x, hx, hpx⟩
      rw [ih (c :: acc) hwit]
      rw [List.dropWhile_cons_of_pos (by simp [hpc]), List.takeWhile_cons_of_pos (by simp [hpc])]
      simp

theorem not_isDigit_of_isAlpha {c : Char} (h : c.isAlpha = true) : c.isDigit = false := by
  simp [Char.isAlpha, Char.isUpper, Char.isLower, Char.isDigit,
    UInt32.le_def, BitVec.le_def] at h ⊢
  omega

/-- C5: the comparator maps a label whose last character lowercases to
r or x to key 0, g or y to 1, b or z to 2, a or w to 3; and adding a set of
labels with pairwise-distinct suffix keys to a fresh group in any order
yields the same canonically ordered label list. -/
theorem c5_comparator_keys :
    (∀ (s : String) (c : Char), s.data.getLast? = some c →
      ((c.toLower = 'r' ∨ c.toLower = 'x') → compareLabels s = some 0) ∧
      ((c.toLower = 'g' ∨ c.toLower = 'y') → compareLabels s = some 1) ∧
      ((c.toLower = 'b' ∨ c.toLower = 'z') → compareLabels s = some 2) ∧
      ((c.toLower = 'a' ∨ c.toLower = 'w') → compareLabels s = some 3)) ∧
    (∀ (l1 l2 : List String) (g : EXRChannelInfo Unit),
      g.labels = [] → l1.Perm l2 → keysDefined l1 → (l1.map keyD).Nodup →
      g.addLabels l1 = g.addLabels l2 ∧
      ∃ g', g.addLabels l1 = some g' ∧ labelsOrdered g'.labels ∧ g'.labels.Perm l1) := by
  constructor
  · intro s c hlast
    have hc : compareLabels s = (match c.toLower with
        | 'r' => some 0
        | 'g' => some 1
        | 'b' => some 2
        | 'a' => some 3
        | 'x' => some 0
        | 'y' => some 1
        | 'z' => some 2
        | 'w' => some 3
        | _ => none) := by
      simp only [compareLabels, hlast]
    refine ⟨?_, ?_, ?_, ?_⟩ <;>
      (intro h; rcases h with h | h <;> (rw [hc, h]; rfl))
  · intro l1 l2 g hg hperm hkd hnd
    have hkd2 : keysDefined l2 := fun x hx => hkd x (hperm.mem_iff.mpr hx)
    have hkdg : keysDefined g.labels := by
      rw [hg]
      intro x hx
      cases hx
    rcases addLabels_isSome hkdg hkd with ⟨g1, h1⟩
    rcases addLabels_isSome hkdg hkd2 with ⟨g2, h2⟩
    rcases addLabels_some_spec h1 with ⟨hn1, ht1, hp1, ho1⟩
    rcases addLabels_some_spec h2 with ⟨hn2, ht2, hp2, ho2⟩
    have hordg : labelsOrdered g.labels := by
      rw [hg]
      exact List.Pairwise.nil
    have hpl1 : g1.labels.Perm l1 := by
      have := hp1
      rw [hg] at this
      simpa using this
    have hpl2 : g2.labels.Perm l2 := by
      have := hp2
      rw [hg] at this
      simpa using this
    have hp12 : g1.labels.Perm g2.labels := (hpl1.trans hperm).trans hpl2.symm
    have hnd1 : (g1.labels.map keyD).Nodup := ((hpl1.map keyD).nodup_iff).mpr hnd
    have hlabeq : g1.labels = g2.labels :=
      eq_of_perm_of_labelsOrdered hp12 (ho1 hordg) (ho2 hordg) hnd1
    have hgeq : g1 = g2 := by
      rcases g1 with ⟨n1, t1, lb1⟩
      rcases g2 with ⟨n2, t2, lb2⟩
      simp only at hn1 hn2 hlabeq
      cases t1
      cases t2
      rw [hlabeq, hn1.trans hn2.symm]
    refine ⟨by rw [h1, h2, hgeq], g1, h1, ho1 hordg, hpl1⟩

/-- C6: on every stem containing an alphabetic character the filename
transformer returns base, dot, channel name, frame, extension, where the
frame is the maximal trailing run of decimal digits preceded by the maximal
run of non-alphabetic characters and the base is everything before it; in
particular beauty_0042.exr with channel C becomes beauty.C_0042.exr. -/
theorem c6_filename_transform :
    (∀ stem suffix channelName : String,
      (∃ c ∈ stem.data, c.isAlpha = true) →
      appendChannelNameToFilename stem suffix channelName =
        some (specBase stem ++ "." ++ channelName ++ specFrame stem ++ suffix) ∧
      specBase stem ++ specFrame stem = stem) ∧
    appendChannelNameToFilename "beauty_0042" ".exr" "C" = some "beauty.C_0042.exr" := by
  constructor
  · intro stem suffix channelName h
    rcases h with ⟨c0, hc0, halpha⟩
    have hc0r : c0 ∈ stem.data.reverse := List.mem_reverse.mpr hc0
    have hw1 : ∃ c ∈ stem.data.reverse, Char.isDigit c = false :=
      ⟨c0, hc0r, not_isDigit_of_isAlpha halpha⟩
    have hphase1 := popWhile_spec [] hw1
    have hc0r1 : c0 ∈ stem.data.reverse.dropWhile Char.isDigit := by
      have hsplit := List.takeWhile_append_dropWhile Char.isDigit stem.data.reverse
      have hmem : c0 ∈ (stem.data.reverse.takeWhile Char.isDigit) ++
          (stem.data.reverse.dropWhile Char.isDigit) := by
        rw [hsplit]
        exact hc0r
      rcases List.mem_append.mp hmem with hmem | hmem
      · have := List.mem_takeWhile_imp hmem
        rw [not_isDigit_of_isAlpha halpha] at this
        cases this
      · exact hmem
    have hw2 : ∃ c ∈ stem.data.reverse.dropWhile Char.isDigit, (!c.isAlpha) = false :=
      ⟨c0, hc0r1, by simp [halpha]⟩
    have hphase2 := popWhile_spec
      ((stem.data.reverse.takeWhile Char.isDigit).reverse ++ []) hw2
    constructor
    · simp only [appendChannelNameToFilename, hphase1, hphase2, specBase, specFrame]
      simp [List.reverse_append]
    · apply String.ext
      simp only [String.data_append, specBase, specFrame]
      rw [← List.reverse_append, List.append_assoc, List.takeWhile_append_dropWhile,
        List.takeWhile_append_dropWhile, List.reverse_reverse]
  · decide

/-- C9: the filename transformer is partial; on every stem with no
alphabetic character at all the two stripping loops exhaust the character
list and the transform fails (models the IndexError) instead of returning a
filename. -/
theorem c9_transform_partial (stem suffix channelName : String)
    (h : ∀ c ∈ stem.data, c.isAlpha = false) :
    appendChannelNameToFilename stem suffix channelName = none := by
  by_cases hall : ∀ c ∈ stem.data.reverse, c.isDigit = true
  · rw [appendChannelNameToFilename, popWhile_all hall]
  · have hw1 : ∃ c ∈ stem.data.reverse, Char.isDigit c = false := by
      push_neg at hall
      rcases hall with ⟨c, hc, hcd⟩
      exact ⟨c, hc, by simpa using hcd⟩
    have hphase1 := popWhile_spec [] hw1
    have hall2 : ∀ c ∈ stem.data.reverse.dropWhile Char.isDigit, (!c.isAlpha) = true := by
      intro c hc
      have hcs : c ∈ stem.data :=
        List.mem_reverse.mp ((List.dropWhile_sublist Char.isDigit).mem hc)
      simp [h c hcs]
    simp only [appendChannelNameToFilename, hphase1, popWhile_all hall2]

/-- C2 counterexample: catalog construction is not exception-free on every
header.  On the one-channel header with label a.q the label classifies into
group a, and sorting the group labels looks the comparator key of a.q up on
the unrecognized suffix q, which raises (modelled by `none`). -/
theorem c2_counterexample : getChannelsInfo [("a.q", (0 : Nat))] = none := by
  rfl

/-- C2 (amended): catalog construction terminates normally and never raises
on every header in which each label containing a dot carries a defined
comparator key (its last character lowercases to one of r,g,b,a,x,y,z,w);
unrecognized channels are only dropped with warnings, and an empty
resulting catalog is legitimate. -/
theorem c2_construction_total {T : Type} [DecidableEq T]
    (header : List (String × T))
    (hdot : ∀ e ∈ header, ('.' : Char) ∈ (e.1 : String).data →
      (compareLabels e.1).isSome = true) :
    ∃ res, getChannelsInfo header = some res := by
  have hkeys : ∀ e ∈ header, ∀ n, classifyLabel e.1 = some n →
      (compareLabels e.1).isSome = true := by
    intro e he n hcl
    by_cases hd : ('.' : Char) ∈ (e.1 : String).data
    · exact hdot e he hd
    · rw [classifyLabel] at hcl
      by_cases h1 : e.1 ∈ (["R", "G", "B", "A"] : List String)
      · have h1' : e.1 = "R" ∨ e.1 = "G" ∨ e.1 = "B" ∨ e.1 = "A" := by
          simpa using h1
        rcases h1' with h | h | h | h <;> rw [h] <;> decide
      · rw [if_neg h1] at hcl
        by_cases h2 : e.1 ∈ (["Z"] : List String)
        · have h2' : e.1 = "Z" := by simpa using h2
          rw [h2']
          decide
        · rw [if_neg h2, if_neg hd] at hcl
          cases hcl
  have hinv0 : catKeysDefined ([] : Catalog T) := by
    intro p hp
    cases hp
  rcases buildFold_isSome hinv0 hkeys with ⟨cat, ws', hb, _⟩
  exact ⟨_, by rw [getChannelsInfo, hb, Option.map_some']⟩

/-- C7: when a label joins an existing group whose recorded pixel type
differs from the label's declared type, the step emits exactly the
type-mismatch warning, keeps the first-seen type, and still appends the
label to the group. -/
theorem c7_type_mismatch {T : Type} [DecidableEq T] {cat : Catalog T}
    {ws : List BuildWarning} {label : String} {t : T} {channelName : String}
    {info info' : EXRChannelInfo T}
    (hcl : classifyLabel label = some channelName)
    (hl : lookupInfo channelName cat = some info)
    (hne : t ≠ info.type)
    (hadd : info.addLabel label = some info') :
    ∃ cat', updateInfo channelName (fun i => i.addLabel label) cat = some cat' ∧
      buildStep (cat, ws) (label, t) =
        some (cat', ws ++ [BuildWarning.typeMismatch channelName label]) ∧
      lookupInfo channelName cat' = some info' ∧
      info'.type = info.type ∧ label ∈ info'.labels := by
  rcases updateInfo_isSome (f := fun i => i.addLabel label) hl hadd with ⟨cat', hup⟩
  refine ⟨cat', hup, ?_, ?_, ?_, ?_⟩
  · rw [buildStep_update hcl hl, hup, Option.map_some', if_pos hne]
  · rcases updateInfo_lookup_found hup hl with ⟨i2, hf2, hl2⟩
    rw [hadd] at hf2
    cases Option.some.inj hf2
    exact hl2
  · rcases addLabel_some_spec hadd with ⟨_, ht, _, _, _⟩
    exact ht
  · rcases addLabel_some_spec hadd with ⟨_, _, hp, _, _⟩
    exact hp.mem_iff.mpr (by simp)

/-- C8: a work unit whose requested channel name is not in the catalog logs
an error and returns without writing any file and without raising; the
returned value is the graceful no-file outcome. -/
theorem c8_missing_channel {PT M P : Type} [DecidableEq PT]
    (cat : Catalog (ImathChannel PT)) (folderPath fileStem fileSuffix channelName : String)
    (sourceHeader : EXRHeader (ImathChannel PT) M) (exr : String → PT → P)
    (h : lookupInfo channelName cat = none) :
    saveChannel cat folderPath fileStem fileSuffix channelName sourceHeader exr =
      some none := by
  simp only [saveChannel, h]

/-- C10: building a sequence over a folder whose listing has no file with
the .exr extension fails during construction (the first-file header read
indexes an empty list) instead of producing an empty sequence. -/
theorem c10_empty_folder {T M : Type} [DecidableEq T]
    (folderListing : List String) (readHeader : String → EXRHeader T M)
    (h : ∀ f ∈ folderListing, (".exr" : String).data.isSuffixOf f.data = false) :
    mkEXRSequence folderListing readHeader = none := by
  have hfiles : getFiles folderListing = [] := by
    rw [getFiles, List.filter_eq_nil_iff]
    intro a ha
    simp [h a ha]
  rw [mkEXRSequence, hfiles]
  rfl

/-! ### Concrete instantiations of the claim theorems -/

theorem c1_catalog_classification_witness :
    ((([("R", (0 : Nat)), ("G", 0), ("B", 0), ("A", 0), ("Z", 1),
        ("normal.X", 0), ("normal.Y", 0), ("normal.Z", 0)] :
        List (String × Nat)).map Prod.fst).Perm
      ["R", "G", "B", "A", "Z", "normal.X", "normal.Y", "normal.Z"]) ∧
    (((∀ label : String, label ∈ (["R", "G", "B", "A"] : List String) →
        classifyLabel label = some "C") ∧
      (∀ label : String, label ∈ (["Z"] : List String) → classifyLabel label = some "Z") ∧
      (∀ label pre post : String, label ∉ (["R", "G", "B", "A", "Z"] : List String) →
        ('.' : Char) ∉ pre.data → label = pre ++ "." ++ post →
        classifyLabel label = some pre) ∧
      (∀ label : String, label ∉ (["R", "G", "B", "A", "Z"] : List String) →
        ('.' : Char) ∉ label.data → classifyLabel label = none) ∧
      (∀ (cat0 : Catalog Nat) (ws0 : List BuildWarning) (label : String) (t : Nat),
        classifyLabel label = none →
        buildStep (cat0, ws0) (label, t) =
          some (cat0, ws0 ++ [BuildWarning.unrecognized label]))) ∧
    ∃ cat ws,
      getChannelsInfo [("R", (0 : Nat)), ("G", 0), ("B", 0), ("A", 0), ("Z", 1),
        ("normal.X", 0), ("normal.Y", 0), ("normal.Z", 0)] = some (cat, ws) ∧
      (cat.map Prod.fst).Perm ["C", "Z", "normal"] ∧
      (∃ tC, lookupInfo "C" cat = some (EXRChannelInfo.mk "C" tC ["R", "G", "B", "A"])) ∧
      (∃ tZ, lookupInfo "Z" cat = some (EXRChannelInfo.mk "Z" tZ ["Z"])) ∧
      (∃ tN, lookupInfo "normal" cat =
        some (EXRChannelInfo.mk "normal" tN ["normal.X", "normal.Y", "normal.Z"])) ∧
      ∀ p ∈ cat, p.2.isValid = true) := by
  have hperm : (([("R", (0 : Nat)), ("G", 0), ("B", 0), ("A", 0), ("Z", 1),
      ("normal.X", 0), ("normal.Y", 0), ("normal.Z", 0)] :
      List (String × Nat)).map Prod.fst).Perm
      ["R", "G", "B", "A", "Z", "normal.X", "normal.Y", "normal.Z"] := List.Perm.refl _
  exact ⟨hperm, c1_catalog_classification _ hperm⟩

theorem c2_construction_total_witness :
    (∀ e ∈ ([("R", (0 : Nat)), ("foo", 1), ("n.X", 2)] : List (String × Nat)),
      ('.' : Char) ∈ (e.1 : String).data → (compareLabels e.1).isSome = true) ∧
    ∃ res, getChannelsInfo ([("R", (0 : Nat)), ("foo", 1), ("n.X", 2)] :
      List (String × Nat)) = some res :=
  ⟨by decide, c2_construction_total _ (by decide)⟩

theorem c3_group_validity_witness :
    ((EXRChannelInfo.mk "C" (0 : Nat) ["R", "G", "B"]).isValid = true ↔
      (((EXRChannelInfo.mk "C" (0 : Nat) ["R", "G", "B"]).isDepth = true ∧
        (EXRChannelInfo.mk "C" (0 : Nat) ["R", "G", "B"]).labels.length = 1) ∨
       ((EXRChannelInfo.mk "C" (0 : Nat) ["R", "G", "B"]).isDepth = false ∧
        ((EXRChannelInfo.mk "C" (0 : Nat) ["R", "G", "B"]).labels.length = 3 ∨
         (EXRChannelInfo.mk "C" (0 : Nat) ["R", "G", "B"]).labels.length = 4)))) ∧
    (∀ (cat : Catalog Nat) (ws : List BuildWarning),
      getChannelsInfo [("R", (0 : Nat)), ("G", 0)] = some (cat, ws) →
      ∀ p ∈ cat, p.2.isValid = true) :=
  ⟨(c3_group_validity (T := Nat)).1 _,
   fun cat ws h => (c3_group_validity (T := Nat)).2 _ cat ws h⟩

theorem c4_target_slots_witness :
    (EXRChannelInfo.mk "C" (ImathChannel.mk (0 : Nat)) ["R", "G", "B"]).getTargetChannels =
      (["R", "G", "B", "A"] : List String).take
        (EXRChannelInfo.mk "C" (ImathChannel.mk (0 : Nat)) ["R", "G", "B"]).labels.length ∧
    (EXRChannelInfo.mk "C" (ImathChannel.mk (0 : Nat))
        ["R", "G", "B"]).getTargetChannels.length =
      min (EXRChannelInfo.mk "C" (ImathChannel.mk (0 : Nat)) ["R", "G", "B"]).labels.length
        4 ∧
    ((EXRChannelInfo.mk "C" (ImathChannel.mk (0 : Nat)) ["R", "G", "B"]).labels.length ≤ 4 →
      (EXRChannelInfo.mk "C" (ImathChannel.mk (0 : Nat))
          ["R", "G", "B"]).getTargetChannels.length =
        (EXRChannelInfo.mk "C" (ImathChannel.mk (0 : Nat)) ["R", "G", "B"]).labels.length) ∧
    ((EXRChannelInfo.mk "C" (ImathChannel.mk (0 : Nat)) ["R", "G", "B"]).getPixelsData
        (fun l t => (l, t))).length =
      (EXRChannelInfo.mk "C" (ImathChannel.mk (0 : Nat))
        ["R", "G", "B"]).getTargetChannels.length ∧
    ∀ i : Nat,
      ((EXRChannelInfo.mk "C" (ImathChannel.mk (0 : Nat)) ["R", "G", "B"]).getPixelsData
        (fun l t => (l, t)))[i]? =
      ((EXRChannelInfo.mk "C" (ImathChannel.mk (0 : Nat))
          ["R", "G", "B"]).getTargetChannels[i]?).map
        (fun tc => (tc,
          ((EXRChannelInfo.mk "C" (ImathChannel.mk (0 : Nat)) ["R", "G", "B"]).labels.getD
            (if (EXRChannelInfo.mk "C" (ImathChannel.mk (0 : Nat)) ["R", "G", "B"]).isDepth
             then 0 else i) "",
           (EXRChannelInfo.mk "C" (ImathChannel.mk (0 : Nat))
             ["R", "G", "B"]).getPixelType))) :=
  c4_target_slots (EXRChannelInfo.mk "C" (ImathChannel.mk (0 : Nat)) ["R", "G", "B"])
    (fun l t => (l, t))

theorem c5_comparator_keys_witness :
    compareLabels "diffuse.R" = some 0 ∧
    (EXRChannelInfo.mk "diffuse" () []).addLabels ["diffuse.g", "diffuse.R", "diffuse.B"] =
      (EXRChannelInfo.mk "diffuse" () []).addLabels ["diffuse.B", "diffuse.R", "diffuse.g"] :=
  ⟨(c5_comparator_keys.1 "diffuse.R" 'R' rfl).1 (Or.inl (by decide)),
   (c5_comparator_keys.2 ["diffuse.g", "diffuse.R", "diffuse.B"]
     ["diffuse.B", "diffuse.R", "diffuse.g"] (EXRChannelInfo.mk "diffuse" () [])
     rfl (by decide) (by unfold keysDefined; decide) (by decide)).1⟩

theorem c6_filename_transform_witness :
    (∃ c ∈ ("beauty_0042" : String).data, c.isAlpha = true) ∧
    (appendChannelNameToFilename "beauty_0042" ".exr" "C" =
      some (specBase "beauty_0042" ++ "." ++ "C" ++ specFrame "beauty_0042" ++ ".exr") ∧
     specBase "beauty_0042" ++ specFrame "beauty_0042" = "beauty_0042") :=
  ⟨by decide, c6_filename_transform.1 "beauty_0042" ".exr" "C" (by decide)⟩

theorem c7_type_mismatch_witness :
    (classifyLabel "G" = some "C" ∧
     lookupInfo "C" [("C", EXRChannelInfo.mk "C" (0 : Nat) ["R"])] =
       some (EXRChannelInfo.mk "C" (0 : Nat) ["R"]) ∧
     (1 : Nat) ≠ (EXRChannelInfo.mk "C" (0 : Nat) ["R"]).type ∧
     (EXRChannelInfo.mk "C" (0 : Nat) ["R"]).addLabel "G" =
       some (EXRChannelInfo.mk "C" (0 : Nat) ["R", "G"])) ∧
    ∃ cat', updateInfo "C" (fun i => i.addLabel "G")
        [("C", EXRChannelInfo.mk "C" (0 : Nat) ["R"])] = some cat' ∧
      buildStep ([("C", EXRChannelInfo.mk "C" (0 : Nat) ["R"])], []) ("G", (1 : Nat)) =
        some (cat', [] ++ [BuildWarning.typeMismatch "C" "G"]) ∧
      lookupInfo "C" cat' = some (EXRChannelInfo.mk "C" (0 : Nat) ["R", "G"]) ∧
      (EXRChannelInfo.mk "C" (0 : Nat) ["R", "G"]).type =
        (EXRChannelInfo.mk "C" (0 : Nat) ["R"]).type ∧
      "G" ∈ (EXRChannelInfo.mk "C" (0 : Nat) ["R", "G"]).labels :=
  ⟨⟨by decide, by decide, by decide, by decide⟩,
   c7_type_mismatch (by decide) (by decide) (by decide) (by decide)⟩

theorem c8_missing_channel_witness :
    lookupInfo "Q" ([] : Catalog (ImathChannel Nat)) = none ∧
    saveChannel ([] : Catalog (ImathChannel Nat)) "out" "beauty_0042" ".exr" "Q"
      (EXRHeader.mk [] ([] : List (String × Nat))) (fun l t => (l, t)) = some none :=
  ⟨rfl, c8_missing_channel _ "out" "beauty_0042" ".exr" "Q" _ _ rfl⟩

theorem c9_transform_partial_witness :
    (∀ c ∈ ("0042" : String).data, c.isAlpha = false) ∧
    appendChannelNameToFilename "0042" ".exr" "C" = none :=
  ⟨by decide, c9_transform_partial "0042" ".exr" "C" (by decide)⟩

theorem c10_empty_folder_witness :
    (∀ f ∈ (["foo.txt"] : List String),
      (".exr" : String).data.isSuffixOf f.data = false) ∧
    mkEXRSequence ["foo.txt"] (fun _ => (EXRHeader.mk [] [] : EXRHeader Nat Nat)) = none :=
  ⟨by decide, c10_empty_folder _ _ (by decide)⟩
